import Mathlib

/-!
Verification of the candv constants-container library (`candv/base.py` and
`candv/__init__.py`) against its specification.

The embedding models the container binding protocol of
`_ConstantsContainerMeta.__new__`: scanning the declared attributes of a
container class body, binding loose constants, evaluating lazy group
descriptors into sub-containers, validating `constant_class`, sorting owned
members by their creation counters, and the read-only accessor surface
(`names`, `constants`, `items`, `get`, indexed lookup, containment, length)
plus `to_primitive` serialization and `Constant` equality/hash.

Python objects are modelled explicitly:
  * a Python class is a `PyClass` (its name plus the names in its method
    resolution order); `isinstance`/`issubclass` become membership tests
    on the mro list;
  * a `Constant` instance is a `ConstantObj` record (class, saved creation
    counter, `name`, `container` back-reference, optional `value` payload
    carried by `ValueConstant`);
  * mutation by `_post_init` becomes a functional record update whose result
    is stored both in the finalized member mapping and in the attribute map;
  * exceptions become `Except PyError`; each error constructor carries the
    values formatted into the corresponding Python message, so "the error
    names X" is expressed as "the error constructor carries X".

Ordinary (non-`Constant`, non-group) class attributes are ignored by the
scanning loop in the source and pass through untouched, so the attribute
lists below hold only the `Constant`-like declarations the protocol acts on.
-/

/-- A primitive value as produced by `to_primitive`: Python `None`, strings,
lists and string-keyed dicts (field order kept, as in Python). -/
inductive Prim where
  | pnone
  | str (s : String)
  | list (xs : List Prim)
  | dict (fields : List (String × Prim))

/-- Payload values carried by `ValueConstant` (an `int` or `str` in the
scenarios exercised here; the library allows any object). -/
inductive Val where
  | int (n : Int)
  | str (s : String)
deriving DecidableEq, Repr

/-- A Python class, identified by its name together with the names of all
classes in its method resolution order (itself included).  `isinstance` and
`issubclass` tests in the source become membership tests on `mro`. -/
structure PyClass where
  clsName : String
  mro : List String
deriving DecidableEq, Repr

/-- `issubclass(c, <class named base>)`. -/
def PyClass.isSub (c : PyClass) (base : String) : Bool :=
  base ∈ c.mro

/-- The base class `candv.base.Constant` (exported as `SimpleConstant`). -/
def ConstantCls : PyClass := ⟨"Constant", ["Constant"]⟩

/-- `candv.ValueConstant`, a subclass of `Constant` carrying a `value`. -/
def ValueConstantCls : PyClass := ⟨"ValueConstant", ["ValueConstant", "Constant"]⟩

/-- A user-defined proper subclass of `Constant` (as built, e.g., by the
`with_constant_class` pattern in the source's doctests). -/
def SomeConstantCls : PyClass := ⟨"SomeConstant", ["SomeConstant", "Constant"]⟩

/-- The builtin `int` class: not `Constant`-capable. -/
def IntCls : PyClass := ⟨"int", ["int"]⟩

/-- Identity of a finalized container as seen from a constant's `container`
back-reference: its `name`, `full_name` and `repr` string. -/
structure ContainerRef where
  name : String
  fullName : String
  reprStr : String
deriving DecidableEq, Repr

/-- A `Constant` instance: its runtime class, the copy of the process-wide
creation counter saved by `Constant.__init__`, the `name` and `container`
fields set by `_post_init` (both `None` until bound), and the optional
`value` attribute set by `ValueConstant.__init__`. -/
structure ConstantObj where
  cls : PyClass
  counter : Nat
  name : Option String
  container : Option ContainerRef
  value : Option Val
deriving DecidableEq, Repr

/-- `isinstance(c, target)` for a constant instance. -/
def ConstantObj.isInst (c : ConstantObj) (target : PyClass) : Bool :=
  target.clsName ∈ c.cls.mro

/-- How Python formats `self.name` inside `full_name` (`None` if unbound). -/
def optNameStr : Option String → String
  | some s => s
  | none => "None"

/-- `Constant.full_name`: the owning container's `full_name`, or the
`__UNBOUND__` sentinel when `container` is `None`, dot-joined with `name`. -/
def ConstantObj.fullName (c : ConstantObj) : String :=
  (match c.container with
   | some r => r.fullName
   | none => "__UNBOUND__") ++ "." ++ optNameStr c.name

/-- `Constant.__repr__`. -/
def ConstantObj.pyRepr (c : ConstantObj) : String :=
  "<constant '" ++ c.fullName ++ "'>"

/-- `Constant.__hash__`: `hash(self.full_name)` (the Python string hash is
modelled by Lean's string hash; only its dependence on `full_name` matters). -/
def ConstantObj.pyHash (c : ConstantObj) : UInt64 :=
  c.fullName.hash

/-- `Constant._post_init(name, container=None)`: sets `name` and
`container`, called by the metaclass during binding. -/
def ConstantObj.postInit (c : ConstantObj) (n : String)
    (container : Option ContainerRef) : ConstantObj :=
  { c with name := some n, container := container }

/-- An arbitrary Python object on the right of `Constant.__eq__`: either a
`Constant` instance or something that is not a `Constant` at all. -/
inductive PyObj where
  | constant (c : ConstantObj)
  | nonConstant (tag : String)
deriving DecidableEq, Repr

/-- `Constant.__eq__`: `isinstance(other, Constant) and
self.full_name == other.full_name`. -/
def ConstantObj.pyEq (c : ConstantObj) : PyObj → Bool
  | .constant d => c.fullName == d.fullName
  | .nonConstant _ => false

/-- A declared attribute the binding protocol acts on: a `Constant` instance
or a `_LazyConstantsGroup` descriptor (anchor constant, the `constant_class`
the `group_class` carries, and the member mapping, whose values are again
constants or nested descriptors — enforced by the descriptor's constructor). -/
inductive GMember where
  | const (c : ConstantObj)
  | lazy (anchor : ConstantObj) (gcc : Option PyClass) (members : List (String × GMember))
deriving Repr

/-- The creation counter by which the owned member built from this attribute
is sorted: a constant's own counter, or — for a group — the anchor's counter
that `merge_into_group` copies onto the group. -/
def GMember.topCounter : GMember → Nat
  | .const c => c.counter
  | .lazy anchor _ _ => anchor.counter

/-- Exceptions raised by the library, with the values formatted into each
Python message carried as fields. `typeErrorGeneric` is an interpreter-raised
`TypeError` whose message carries none of those values. -/
inductive PyError where
  | typeErrorGeneric (msg : String)
  | invalidConstantClass (declared : String) (containerRepr : String) (requiredBase : String)
  | alreadyBound (constRepr : String) (attrName : String) (targetRepr : String) (ownerRepr : String)
  | keyErrorMissing (name : String) (containerRepr : String)
  | containerMisused (containerRepr : String)
deriving DecidableEq, Repr

mutual
/-- A value in the finalized attribute map of a container class: a constant
object (bound, or excluded and left unbound) or an evaluated group. -/
inductive AttrOut where
  | constObj (c : ConstantObj)
  | groupObj (m : MemberObj)

/-- An owned member of a finalized container: a bound constant, or a group —
the creation counter, `value` and anchor `name` merged onto it by
`merge_into_group` (the anchor's `to_primitive` reads the anchor name), plus
the sub-container itself. -/
inductive MemberObj where
  | const (c : ConstantObj)
  | group (counter : Nat) (value : Option Val) (anchorName : Option String) (sub : ContainerObj)

/-- A finalized constants container: `name`, `full_name`, its `repr`, the
`_constants` ordered mapping, and the attribute map after finalization. -/
inductive ContainerObj where
  | mk (name fullName reprStr : String)
       (members : List (String × MemberObj))
       (attrs : List (String × AttrOut))
end

def ContainerObj.name : ContainerObj → String
  | .mk n _ _ _ _ => n

def ContainerObj.fullName : ContainerObj → String
  | .mk _ f _ _ _ => f

def ContainerObj.reprStr : ContainerObj → String
  | .mk _ _ r _ _ => r

/-- The `_constants` ordered mapping stored at the end of finalization. -/
def ContainerObj.members : ContainerObj → List (String × MemberObj)
  | .mk _ _ _ ms _ => ms

/-- The attribute map of the finalized class (the scanned declarations). -/
def ContainerObj.attrs : ContainerObj → List (String × AttrOut)
  | .mk _ _ _ _ as => as

/-- The creation counter an owned member is sorted by. -/
def MemberObj.counter : MemberObj → Nat
  | .const c => c.counter
  | .group k _ _ _ => k

/-- The `value` attribute of a member (a group's merged-in value). -/
def MemberObj.valueAttr : MemberObj → Option Val
  | .const c => c.value
  | .group _ v _ _ => v

/-- Sorting of the owned members: `constants.sort(key=lambda x:
x[1]._creation_counter)` — a stable ascending sort by creation counter
(Python's stable `list.sort` and any other stable sort agree). -/
def sortMembers (l : List (String × MemberObj)) : List (String × MemberObj) :=
  List.insertionSort (fun a b => a.2.counter ≤ b.2.counter) l

/-- The `repr` of a container class whose body does not set `__repr`:
`"<constants container '...'>"` built from its `name`. -/
def contRepr (name : String) : String :=
  "<constants container '" ++ name ++ "'>"

/-- The `repr` a lazy group installs for the group class it evaluates to:
`"<constants group '...'>"` built from the group's `full_name`. -/
def groupRepr (fullName : String) : String :=
  "<constants group '" ++ fullName ++ "'>"

/-- The branch `if not issubclass(constant_class, Constant)` of the
metaclass.  `issubclass(None, Constant)` raises the interpreter's own
`TypeError` before the formatted message is built; a class not derived from
`Constant` raises the formatted `TypeError` naming the declared class, the
container and the required base. -/
def checkConstantClass (cc? : Option PyClass) (clsRepr : String) :
    Except PyError PyClass :=
  match cc? with
  | none => .error (.typeErrorGeneric "issubclass() arg 1 must be a class")
  | some cc =>
      if cc.isSub "Constant" then .ok cc
      else .error (.invalidConstantClass cc.clsName clsRepr "Constant")

/-- `merge_into_group` payload dispatch: `ValueConstant.merge_into_group`
copies `value` onto the group; the base method copies only the counter. -/
def mergedValue (anchor : ConstantObj) : Option Val :=
  if anchor.isInst ValueConstantCls then anchor.value else none

mutual
/-- One step of the scanning loop of `_ConstantsContainerMeta.__new__` for a
single declared attribute: the resulting attribute value, and the owned
member it contributes to `_constants` (if any).  A constant satisfying
`constant_class` must be unbound, and is bound by `_post_init(name, cls)`;
a broader `Constant` gets `_post_init(name)` (name set, container `None`)
and is not owned; a lazy descriptor is evaluated into a group. -/
def scanOne (ref : ContainerRef) (cc : PyClass) (p : String × GMember) :
    Except PyError ((String × AttrOut) × Option (String × MemberObj)) :=
  match p with
  | (n, .const c) =>
      if c.isInst cc then
        match c.container with
        | some owner =>
            .error (.alreadyBound c.pyRepr n ref.reprStr owner.reprStr)
        | none =>
            let c2 := c.postInit n (some ref)
            .ok ((n, .constObj c2), some (n, .const c2))
      else
        let c2 := c.postInit n none
        .ok ((n, .constObj c2), none)
  | (n, .lazy anchor gcc gmembers) => do
      let g ← evalLazy ref n anchor gcc gmembers
      .ok ((n, .groupObj g), some (n, g))
termination_by 2 * sizeOf p.2

/-- `_LazyConstantsGroup._evaluate`: build the group's `full_name`, create
the group class (running the metaclass on the descriptor's member mapping
with the group class's `constant_class`), then `merge_into_group` copies the
anchor's counter and payload onto it. -/
def evalLazy (parent : ContainerRef) (attrName : String) (anchor : ConstantObj)
    (gcc? : Option PyClass) (gmembers : List (String × GMember)) :
    Except PyError MemberObj := do
  let fullName := parent.fullName ++ "." ++ attrName
  let reprStr := groupRepr fullName
  let cc ← checkConstantClass gcc? reprStr
  let ref : ContainerRef := ⟨attrName, fullName, reprStr⟩
  let rs ← scanList ref cc gmembers
  .ok (.group anchor.counter (mergedValue anchor) anchor.name
        (.mk attrName fullName reprStr
          (sortMembers (rs.filterMap (fun r => r.2)))
          (rs.map (fun r => r.1))))
termination_by 2 * sizeOf gmembers + 1

/-- The scanning loop over all declared attributes, in body order.  Each
attribute is processed independently (the loop threads no state between
iterations); the first failing attribute aborts the definition. -/
def scanList (ref : ContainerRef) (cc : PyClass)
    (l : List (String × GMember)) :
    Except PyError (List ((String × AttrOut) × Option (String × MemberObj))) :=
  match l with
  | [] => .ok []
  | p :: rest => do
      let r ← scanOne ref cc p
      let rs ← scanList ref cc rest
      .ok (r :: rs)
termination_by 2 * sizeOf l
decreasing_by
  all_goals simp_wf
  all_goals obtain ⟨a, b⟩ := p
  all_goals simp
  all_goals omega
end

/-- `_ConstantsContainerMeta.__new__` for a user-defined container class:
`name`/`full_name` default to the class name, the `repr` is built, the
declared `constant_class` is validated, the body's `Constant`-like
declarations are scanned, and the owned members are stably sorted by
creation counter into the `_constants` mapping. -/
def containerNew (className : String) (cc? : Option PyClass)
    (attrs : List (String × GMember)) : Except PyError ContainerObj := do
  let reprStr := contRepr className
  let cc ← checkConstantClass cc? reprStr
  let ref : ContainerRef := ⟨className, className, reprStr⟩
  let rs ← scanList ref cc attrs
  .ok (.mk className className reprStr
        (sortMembers (rs.filterMap (fun r => r.2)))
        (rs.map (fun r => r.1)))

/-- `names()` (and the iteration order of `iternames`): the keys of
`_constants`, in stored order. -/
def ContainerObj.names (c : ContainerObj) : List String :=
  c.members.map Prod.fst

/-- `constants()` (aliased as `values`): the stored members, in order. -/
def ContainerObj.constants (c : ContainerObj) : List MemberObj :=
  c.members.map Prod.snd

/-- `items()`: the `(name, constant)` pairs, in order. -/
def ContainerObj.items (c : ContainerObj) : List (String × MemberObj) :=
  c.members

/-- `len(container)`: the size of `_constants`. -/
def ContainerObj.len (c : ContainerObj) : Nat :=
  c.members.length

/-- `name in container`: membership in `_constants`. -/
def ContainerObj.containsName (c : ContainerObj) (n : String) : Bool :=
  (c.members.lookup n).isSome

/-- `container[name]` (`_ConstantsContainerMeta.__getitem__`): the stored
member, or a `KeyError` carrying the missing name and the container's
`repr`. -/
def ContainerObj.getitem (c : ContainerObj) (n : String) :
    Except PyError MemberObj :=
  match c.members.lookup n with
  | some m => .ok m
  | none => .error (.keyErrorMissing n c.reprStr)

/-- `get(name, default)`: `self[name] if name in self else default`.  The
default is an arbitrary caller-supplied object (`none` models Python's
`None`). -/
def ContainerObj.get (c : ContainerObj) (n : String)
    (default : Option MemberObj) : Except PyError (Option MemberObj) :=
  if c.containsName n then (c.getitem n).map some else .ok default

/-- `ConstantsContainer.__new__`: every attempt to construct an instance of
a finalized container type raises `TypeError("<repr> cannot be instantiated,
because constant containers are not designed for that.")`, naming the
container.  All container classes of the library (the base class, derived
containers and lazily evaluated groups) inherit this `__new__`. -/
def ContainerObj.instantiate (c : ContainerObj) : Except PyError Unit :=
  .error (.containerMisused c.reprStr)

/-- How `to_primitive` renders a `name` field (`None` when unset). -/
def nameToPrim : Option String → Prim
  | none => .pnone
  | some s => .str s

/-- `Constant.to_primitive`: the single-field mapping with the name. -/
def ConstantObj.toPrimitive (c : ConstantObj) : Prim :=
  .dict [("name", nameToPrim c.name)]

/-- Python `dict.update` on string-keyed field lists: existing keys are
overwritten in place, new keys are appended in order. -/
def updFields (fs upd : List (String × Prim)) : List (String × Prim) :=
  fs.map (fun kv => (kv.1, ((upd.lookup kv.1).getD kv.2)))
    ++ upd.filter (fun kv => (fs.lookup kv.1).isNone)

/-- `primitive.update(...)` for two dict primitives (the only use site). -/
def dictUpdate : Prim → Prim → Prim
  | .dict fs, .dict upd => .dict (updFields fs upd)
  | p, _ => p

mutual
/-- `to_primitive` of an owned member.  A plain constant serializes itself;
a group uses the method patched in by `_LazyConstantsGroup._evaluate`: the
anchor constant's `to_primitive` output updated with the container-level
`to_primitive` of the group. -/
def memberPrim : MemberObj → Prim
  | .const c => c.toPrimitive
  | .group _ _ anchorName sub =>
      dictUpdate (.dict [("name", nameToPrim anchorName)]) (containerPrim sub)

/-- `_ConstantsContainerMeta.to_primitive`: the mapping with the container's
`name` and the ordered list of each member's own `to_primitive` output. -/
def containerPrim : ContainerObj → Prim
  | .mk nm _ _ ms _ => .dict [("name", .str nm), ("items", .list (primList ms))]

/-- The `items` list: `[x.to_primitive(context) for x in self.iterconstants()]`. -/
def primList : List (String × MemberObj) → List Prim
  | [] => []
  | p :: rest => memberPrim p.2 :: primList rest
end

/-- `to_primitive` of a finalized container. -/
def ContainerObj.toPrimitive (c : ContainerObj) : Prim :=
  containerPrim c

/-- The sub-container carried by a group member. -/
def MemberObj.groupSub : MemberObj → Option ContainerObj
  | .group _ _ _ sub => some sub
  | .const _ => none

/-! ### Characterization lemmas for the binding protocol -/

theorem scanList_nil (ref : ContainerRef) (cc : PyClass) :
    scanList ref cc [] = .ok [] := by
  simp [scanList]

theorem scanList_cons (ref : ContainerRef) (cc : PyClass)
    (p : String × GMember) (rest : List (String × GMember)) :
    scanList ref cc (p :: rest) =
      (scanOne ref cc p).bind (fun r =>
        (scanList ref cc rest).bind (fun rs => .ok (r :: rs))) := by
  rw [scanList]
  rfl

/-- Junk element used only to state that a successful scan is the pointwise
image of `scanOne` (its value is never reached on a successful scan). -/
def scanDflt : (String × AttrOut) × Option (String × MemberObj) :=
  (("", .constObj ⟨⟨"", []⟩, 0, none, none, none⟩), none)

/-- The value of a successful computation, or a fallback. -/
def okD {α : Type} (e : Except PyError α) (d : α) : α :=
  match e with
  | .ok a => a
  | .error _ => d

theorem scanList_cons_ok {ref : ContainerRef} {cc : PyClass}
    {p : String × GMember} {rest : List (String × GMember)}
    {rs : List ((String × AttrOut) × Option (String × MemberObj))} :
    scanList ref cc (p :: rest) = .ok rs ↔
      ∃ r rs2, scanOne ref cc p = .ok r ∧ scanList ref cc rest = .ok rs2 ∧
        rs = r :: rs2 := by
  rw [scanList_cons]
  cases h1 : scanOne ref cc p with
  | error e => simp [Except.bind, h1]
  | ok r =>
    cases h2 : scanList ref cc rest with
    | error e => simp [Except.bind, h2]
    | ok rs2 =>
      simp only [Except.bind, Except.ok.injEq]
      constructor
      · intro h
        exact ⟨r, rs2, rfl, rfl, h.symm⟩
      · rintro ⟨a, b, ha, hb, rfl⟩
        cases ha
        cases hb
        rfl

theorem scanList_ok_map {ref : ContainerRef} {cc : PyClass} :
    ∀ {l : List (String × GMember)}
      {rs : List ((String × AttrOut) × Option (String × MemberObj))},
    scanList ref cc l = .ok rs →
      rs = l.map (fun p => okD (scanOne ref cc p) scanDflt) := by
  intro l
  induction l with
  | nil =>
    intro rs h
    rw [scanList_nil] at h
    cases h
    rfl
  | cons p rest ih =>
    intro rs h
    rcases scanList_cons_ok.mp h with ⟨r, rs2, h1, h2, rfl⟩
    simp [List.map, ih h2, okD, h1]

theorem scanList_isOk_iff {ref : ContainerRef} {cc : PyClass} :
    ∀ {l : List (String × GMember)},
    (∃ rs, scanList ref cc l = .ok rs) ↔
      ∀ p ∈ l, ∃ r, scanOne ref cc p = .ok r := by
  intro l
  induction l with
  | nil => simp [scanList_nil]
  | cons p rest ih =>
    constructor
    · rintro ⟨rs, h⟩ q hq
      rcases scanList_cons_ok.mp h with ⟨r, rs2, h1, h2, rfl⟩
      rcases List.mem_cons.mp hq with hq | hq
      · exact ⟨r, hq ▸ h1⟩
      · exact ih.mp ⟨rs2, h2⟩ q hq
    · intro h
      rcases h p (List.mem_cons_self p rest) with ⟨r, h1⟩
      rcases ih.mpr (fun q hq => h q (List.mem_cons_of_mem p hq)) with ⟨rs2, h2⟩
      exact ⟨r :: rs2, scanList_cons_ok.mpr ⟨r, rs2, h1, h2, rfl⟩⟩

theorem scanOne_const_bound {ref : ContainerRef} {cc : PyClass} {n : String}
    {c : ConstantObj} {owner : ContainerRef}
    (hinst : c.isInst cc = true) (hb : c.container = some owner) :
    scanOne ref cc (n, .const c) =
      .error (.alreadyBound c.pyRepr n ref.reprStr owner.reprStr) := by
  simp [scanOne, hinst, hb]

theorem scanOne_const_free {ref : ContainerRef} {cc : PyClass} {n : String}
    {c : ConstantObj} (hinst : c.isInst cc = true) (hb : c.container = none) :
    scanOne ref cc (n, .const c) =
      .ok ((n, .constObj (c.postInit n (some ref))),
           some (n, .const (c.postInit n (some ref)))) := by
  simp [scanOne, hinst, hb]

theorem scanOne_const_excluded {ref : ContainerRef} {cc : PyClass} {n : String}
    {c : ConstantObj} (hinst : c.isInst cc = false) :
    scanOne ref cc (n, .const c) =
      .ok ((n, .constObj (c.postInit n none)), none) := by
  simp [scanOne, hinst]

theorem scanOne_lazy (ref : ContainerRef) (cc : PyClass) (n : String)
    (anchor : ConstantObj) (gcc : Option PyClass)
    (gms : List (String × GMember)) :
    scanOne ref cc (n, .lazy anchor gcc gms) =
      (evalLazy ref n anchor gcc gms).bind
        (fun g => .ok ((n, .groupObj g), some (n, g))) := by
  rw [scanOne]
  rfl

theorem evalLazy_eq (parent : ContainerRef) (n : String) (anchor : ConstantObj)
    (gcc? : Option PyClass) (gms : List (String × GMember)) :
    evalLazy parent n anchor gcc? gms =
      (checkConstantClass gcc? (groupRepr (parent.fullName ++ "." ++ n))).bind
        (fun cc =>
          (scanList ⟨n, parent.fullName ++ "." ++ n,
              groupRepr (parent.fullName ++ "." ++ n)⟩ cc gms).bind
            (fun rs =>
              .ok (.group anchor.counter (mergedValue anchor) anchor.name
                (.mk n (parent.fullName ++ "." ++ n)
                  (groupRepr (parent.fullName ++ "." ++ n))
                  (sortMembers (rs.filterMap (fun r => r.2)))
                  (rs.map (fun r => r.1)))))) := by
  rw [evalLazy]
  rfl

theorem containerNew_eq (nm : String) (cc? : Option PyClass)
    (attrs : List (String × GMember)) :
    containerNew nm cc? attrs =
      (checkConstantClass cc? (contRepr nm)).bind (fun cc =>
        (scanList ⟨nm, nm, contRepr nm⟩ cc attrs).bind (fun rs =>
          .ok (.mk nm nm (contRepr nm)
            (sortMembers (rs.filterMap (fun r => r.2)))
            (rs.map (fun r => r.1))))) := rfl

theorem containerNew_ok {nm : String} {cc? : Option PyClass}
    {attrs : List (String × GMember)} {cont : ContainerObj} :
    containerNew nm cc? attrs = .ok cont ↔
      ∃ cc rs, checkConstantClass cc? (contRepr nm) = .ok cc ∧
        scanList ⟨nm, nm, contRepr nm⟩ cc attrs = .ok rs ∧
        cont = .mk nm nm (contRepr nm)
          (sortMembers (rs.filterMap (fun r => r.2)))
          (rs.map (fun r => r.1)) := by
  rw [containerNew_eq]
  cases h1 : checkConstantClass cc? (contRepr nm) with
  | error e => simp [Except.bind, h1]
  | ok cc =>
    cases h2 : scanList ⟨nm, nm, contRepr nm⟩ cc attrs with
    | error e =>
      simp only [Except.bind, h1, h2]
      constructor
      · intro h
        cases h
      · rintro ⟨cc2, rs, hcc2, hrs, rfl⟩
        cases hcc2
        rw [h2] at hrs
        cases hrs
    | ok rs =>
      simp only [Except.bind, h1, h2, Except.ok.injEq]
      constructor
      · intro h
        exact ⟨cc, rs, rfl, h2, h.symm⟩
      · rintro ⟨cc2, rs2, hcc2, hrs2, rfl⟩
        cases hcc2
        rw [h2] at hrs2
        cases hrs2
        rfl

theorem evalLazy_ok {parent : ContainerRef} {n : String} {anchor : ConstantObj}
    {gcc? : Option PyClass} {gms : List (String × GMember)} {g : MemberObj} :
    evalLazy parent n anchor gcc? gms = .ok g ↔
      ∃ cc rs,
        checkConstantClass gcc? (groupRepr (parent.fullName ++ "." ++ n)) = .ok cc ∧
        scanList ⟨n, parent.fullName ++ "." ++ n,
            groupRepr (parent.fullName ++ "." ++ n)⟩ cc gms = .ok rs ∧
        g = .group anchor.counter (mergedValue anchor) anchor.name
          (.mk n (parent.fullName ++ "." ++ n)
            (groupRepr (parent.fullName ++ "." ++ n))
            (sortMembers (rs.filterMap (fun r => r.2)))
            (rs.map (fun r => r.1))) := by
  rw [evalLazy_eq]
  cases h1 : checkConstantClass gcc? (groupRepr (parent.fullName ++ "." ++ n)) with
  | error e => simp [Except.bind, h1]
  | ok cc =>
    cases h2 : scanList ⟨n, parent.fullName ++ "." ++ n,
        groupRepr (parent.fullName ++ "." ++ n)⟩ cc gms with
    | error e =>
      simp only [Except.bind, h1, h2]
      constructor
      · intro h
        cases h
      · rintro ⟨cc2, rs, hcc2, hrs, rfl⟩
        cases hcc2
        rw [h2] at hrs
        cases hrs
    | ok rs =>
      simp only [Except.bind, h1, h2, Except.ok.injEq]
      constructor
      · intro h
        exact ⟨cc, rs, rfl, h2, h.symm⟩
      · rintro ⟨cc2, rs2, hcc2, hrs2, rfl⟩
        cases hcc2
        rw [h2] at hrs2
        cases hrs2
        rfl

/-- A successful `scanOne` keeps the attribute's key on both outputs. -/
theorem scanOne_key {ref : ContainerRef} {cc : PyClass} {n : String}
    {g : GMember} {r : (String × AttrOut) × Option (String × MemberObj)}
    (h : scanOne ref cc (n, g) = .ok r) :
    r.1.1 = n ∧ ∀ pm, r.2 = some pm → pm.1 = n := by
  cases g with
  | const c =>
    by_cases hinst : c.isInst cc
    · cases hb : c.container with
      | some owner =>
        rw [scanOne_const_bound hinst hb] at h
        cases h
      | none =>
        rw [scanOne_const_free hinst hb] at h
        cases h
        exact ⟨rfl, by rintro pm ⟨rfl⟩; rfl⟩
    · rw [scanOne_const_excluded (Bool.not_eq_true _ ▸ hinst)] at h
      cases h
      exact ⟨rfl, by rintro pm h2; cases h2⟩
  | lazy anchor gcc gms =>
    rw [scanOne_lazy] at h
    cases he : evalLazy ref n anchor gcc gms with
    | error e =>
      rw [he] at h
      cases h
    | ok g2 =>
      rw [he] at h
      cases h
      exact ⟨rfl, by rintro pm ⟨rfl⟩; rfl⟩

/-- A successful `scanOne` gives the owned member (when there is one) the
creation counter the sort key reads: the constant's own, or — for a group —
the anchor's counter copied by `merge_into_group`. -/
theorem scanOne_counter {ref : ContainerRef} {cc : PyClass} {n : String}
    {g : GMember} {r : (String × AttrOut) × Option (String × MemberObj)}
    (h : scanOne ref cc (n, g) = .ok r) :
    ∀ pm, r.2 = some pm → pm.2.counter = g.topCounter := by
  cases g with
  | const c =>
    by_cases hinst : c.isInst cc
    · cases hb : c.container with
      | some owner =>
        rw [scanOne_const_bound hinst hb] at h
        cases h
      | none =>
        rw [scanOne_const_free hinst hb] at h
        cases h
        rintro pm ⟨rfl⟩
        rfl
    · rw [scanOne_const_excluded (Bool.not_eq_true _ ▸ hinst)] at h
      cases h
      rintro pm h2
      cases h2
  | lazy anchor gcc gms =>
    rw [scanOne_lazy] at h
    cases he : evalLazy ref n anchor gcc gms with
    | error e =>
      rw [he] at h
      cases h
    | ok g2 =>
      rw [he] at h
      cases h
      rintro pm ⟨rfl⟩
      rcases evalLazy_ok.mp he with ⟨cc2, rs, _, _, rfl⟩
      rfl

/-! ### Sorting facts -/

instance memberLETotal :
    IsTotal (String × MemberObj) (fun a b => a.2.counter ≤ b.2.counter) :=
  ⟨fun a b => Nat.le_total a.2.counter b.2.counter⟩

instance memberLETrans :
    IsTrans (String × MemberObj) (fun a b => a.2.counter ≤ b.2.counter) :=
  ⟨fun _ _ _ hab hbc => Nat.le_trans hab hbc⟩

instance memberLTAntisymm :
    IsAntisymm (String × MemberObj) (fun a b => a.2.counter < b.2.counter) :=
  ⟨fun _ _ h1 h2 => absurd h2 (Nat.lt_asymm h1)⟩

theorem sortMembers_sorted (l : List (String × MemberObj)) :
    List.Pairwise (fun a b => a.2.counter ≤ b.2.counter) (sortMembers l) := by
  unfold sortMembers
  exact List.sorted_insertionSort (fun a b => a.2.counter ≤ b.2.counter) l

theorem sortMembers_perm (l : List (String × MemberObj)) :
    (sortMembers l).Perm l := by
  unfold sortMembers
  exact List.perm_insertionSort (fun a b => a.2.counter ≤ b.2.counter) l

/-- Two sorted member lists with the same elements and duplicate-free
creation counters are equal: the stored order is fully determined by the
counters (hence deterministic across structurally identical definitions). -/
theorem sorted_counters_unique {l1 l2 : List (String × MemberObj)}
    (hp : l1.Perm l2)
    (hs1 : List.Pairwise (fun a b => a.2.counter ≤ b.2.counter) l1)
    (hs2 : List.Pairwise (fun a b => a.2.counter ≤ b.2.counter) l2)
    (hn : (l1.map (fun p => p.2.counter)).Nodup) : l1 = l2 := by
  have key : ∀ (l : List (String × MemberObj)),
      List.Pairwise (fun a b => a.2.counter ≤ b.2.counter) l →
      ((l.map (fun p => p.2.counter)).Nodup) →
      List.Pairwise (fun a b => a.2.counter < b.2.counter) l := by
    intro l hs hnd
    have hne : List.Pairwise
        (fun (a b : String × MemberObj) => a.2.counter ≠ b.2.counter) l :=
      List.pairwise_map.mp hnd
    exact (hs.and hne).imp (fun h => Nat.lt_of_le_of_ne h.1 h.2)
  have hn2 : (l2.map (fun p => p.2.counter)).Nodup :=
    ((hp.map (fun p => p.2.counter)).nodup_iff).mp hn
  exact List.eq_of_perm_of_sorted hp (key l1 hs1 hn) (key l2 hs2 hn2)

/-- The counters of the owned members of a successful scan form a sublist of
the declared attributes' counters (an excluded constant drops out). -/
theorem owned_counters_sublist {ref : ContainerRef} {cc : PyClass} :
    ∀ {l : List (String × GMember)}
      {rs : List ((String × AttrOut) × Option (String × MemberObj))},
    scanList ref cc l = .ok rs →
      ((rs.filterMap (fun r => r.2)).map (fun p => p.2.counter)).Sublist
        (l.map (fun p => p.2.topCounter)) := by
  intro l
  induction l with
  | nil =>
    intro rs h
    rw [scanList_nil] at h
    cases h
    simp
  | cons p rest ih =>
    intro rs h
    rcases scanList_cons_ok.mp h with ⟨r, rs2, h1, h2, rfl⟩
    obtain ⟨n, g⟩ := p
    cases hr2 : r.2 with
    | none =>
      simp only [List.filterMap_cons, hr2, List.map_cons]
      exact (ih h2).cons _
    | some pm =>
      have hc := scanOne_counter h1 pm hr2
      simp only [List.filterMap_cons, hr2, List.map_cons, hc]
      exact (ih h2).cons₂ _

/-! ### C1 — iteration order is creation order -/

/-- C1: for every finalized container, `names()`, `constants()` and
`items()` (all views of the stored `_constants` mapping, `members` here)
return the owned members sorted ascending by their creation-order tokens
rather than by textual declaration order (the accessors re-read the stored
mapping, so repeated calls return the same order): the stored pairs are
pairwise ascending in `counter`, and — given the process-wide uniqueness of
creation counters — any textual reordering of a structurally identical body
finalizes to the identical member list, so `names()` agrees as well. -/
theorem names_sorted_by_creation_order
    (nm : String) (cc? : Option PyClass)
    (attrs1 attrs2 : List (String × GMember)) (cont1 cont2 : ContainerObj)
    (h1 : containerNew nm cc? attrs1 = .ok cont1)
    (h2 : containerNew nm cc? attrs2 = .ok cont2)
    (hperm : attrs1.Perm attrs2)
    (hnodup : (attrs1.map (fun p => p.2.topCounter)).Nodup) :
    List.Pairwise (fun a b => a.2.counter ≤ b.2.counter) cont1.items ∧
    cont1.members = cont2.members ∧ cont1.names = cont2.names := by
  rcases containerNew_ok.mp h1 with ⟨cc, rs1, hcc, hs1, rfl⟩
  rcases containerNew_ok.mp h2 with ⟨cc2, rs2, hcc2, hs2, rfl⟩
  rw [hcc] at hcc2
  cases hcc2
  have hmap1 := scanList_ok_map hs1
  have hmap2 := scanList_ok_map hs2
  have hrsperm : rs1.Perm rs2 := by
    rw [hmap1, hmap2]
    exact hperm.map _
  have hownedperm : (rs1.filterMap (fun r => r.2)).Perm
      (rs2.filterMap (fun r => r.2)) := hrsperm.filterMap _
  have hsorted1 := sortMembers_sorted (rs1.filterMap (fun r => r.2))
  have hsorted2 := sortMembers_sorted (rs2.filterMap (fun r => r.2))
  have hnodup1 : (((rs1.filterMap (fun r => r.2)).map
      (fun p => p.2.counter)).Nodup) :=
    (owned_counters_sublist hs1).nodup hnodup
  have hnodupsorted :
      (((sortMembers (rs1.filterMap (fun r => r.2))).map
        (fun p => p.2.counter)).Nodup) :=
    (((sortMembers_perm _).map (fun p => p.2.counter)).nodup_iff).mpr hnodup1
  have hchain : (sortMembers (rs1.filterMap (fun r => r.2))).Perm
      (sortMembers (rs2.filterMap (fun r => r.2))) :=
    ((sortMembers_perm _).trans hownedperm).trans (sortMembers_perm _).symm
  have heq := sorted_counters_unique hchain hsorted1 hsorted2 hnodupsorted
  refine ⟨?_, ?_, ?_⟩
  · exact hsorted1
  · simp only [ContainerObj.members, heq]
  · simp only [ContainerObj.names, ContainerObj.members, heq]

def w1a : ConstantObj := ⟨ConstantCls, 7, none, none, none⟩
def w1b : ConstantObj := ⟨ConstantCls, 3, none, none, none⟩
def w1attrs1 : List (String × GMember) := [("A", .const w1a), ("B", .const w1b)]
def w1attrs2 : List (String × GMember) := [("B", .const w1b), ("A", .const w1a)]
def wRef : ContainerRef := ⟨"W", "W", contRepr "W"⟩
def w1aB : ConstantObj := ⟨ConstantCls, 7, some "A", some wRef, none⟩
def w1bB : ConstantObj := ⟨ConstantCls, 3, some "B", some wRef, none⟩
def w1cont1 : ContainerObj :=
  .mk "W" "W" (contRepr "W")
    [("B", .const w1bB), ("A", .const w1aB)]
    [("A", .constObj w1aB), ("B", .constObj w1bB)]
def w1cont2 : ContainerObj :=
  .mk "W" "W" (contRepr "W")
    [("B", .const w1bB), ("A", .const w1aB)]
    [("B", .constObj w1bB), ("A", .constObj w1aB)]

theorem w1_scanA : scanOne wRef ConstantCls ("A", .const w1a) =
    .ok (("A", .constObj w1aB), some ("A", .const w1aB)) :=
  @scanOne_const_free wRef ConstantCls "A" w1a rfl rfl

theorem w1_scanB : scanOne wRef ConstantCls ("B", .const w1b) =
    .ok (("B", .constObj w1bB), some ("B", .const w1bB)) :=
  @scanOne_const_free wRef ConstantCls "B" w1b rfl rfl

/-- Packaging of a validated class and a successful scan into the finalized
container (the success direction of `containerNew_ok`). -/
theorem containerNew_ok_of_scan {nm : String} {cc? : Option PyClass}
    {cc : PyClass} {attrs : List (String × GMember)}
    {rs : List ((String × AttrOut) × Option (String × MemberObj))}
    (hcc : checkConstantClass cc? (contRepr nm) = .ok cc)
    (hs : scanList ⟨nm, nm, contRepr nm⟩ cc attrs = .ok rs) :
    containerNew nm cc? attrs = .ok (.mk nm nm (contRepr nm)
      (sortMembers (rs.filterMap (fun r => r.2)))
      (rs.map (fun r => r.1))) :=
  containerNew_ok.mpr ⟨cc, rs, hcc, hs, rfl⟩

def w1rs1 : List ((String × AttrOut) × Option (String × MemberObj)) :=
  [(("A", .constObj w1aB), some ("A", .const w1aB)),
   (("B", .constObj w1bB), some ("B", .const w1bB))]

def w1rs2 : List ((String × AttrOut) × Option (String × MemberObj)) :=
  [(("B", .constObj w1bB), some ("B", .const w1bB)),
   (("A", .constObj w1aB), some ("A", .const w1aB))]

theorem w1_scan1 : scanList wRef ConstantCls w1attrs1 = .ok w1rs1 := by
  rw [show w1attrs1 = [("A", .const w1a), ("B", .const w1b)] from rfl]
  rw [scanList_cons, w1_scanA, scanList_cons, w1_scanB, scanList_nil]
  rfl

theorem w1_scan2 : scanList wRef ConstantCls w1attrs2 = .ok w1rs2 := by
  rw [show w1attrs2 = [("B", .const w1b), ("A", .const w1a)] from rfl]
  rw [scanList_cons, w1_scanB, scanList_cons, w1_scanA, scanList_nil]
  rfl

theorem w1_eval1 : containerNew "W" (some ConstantCls) w1attrs1 = .ok w1cont1 :=
  (containerNew_ok_of_scan (by rfl) w1_scan1).trans (by rfl)

theorem w1_eval2 : containerNew "W" (some ConstantCls) w1attrs2 = .ok w1cont2 :=
  (containerNew_ok_of_scan (by rfl) w1_scan2).trans (by rfl)

theorem names_sorted_by_creation_order_witness :
    List.Pairwise (fun a b => a.2.counter ≤ b.2.counter) w1cont1.items ∧
    w1cont1.members = w1cont2.members ∧ w1cont1.names = w1cont2.names :=
  names_sorted_by_creation_order "W" (some ConstantCls) w1attrs1 w1attrs2
    w1cont1 w1cont2 w1_eval1 w1_eval2
    (by exact List.Perm.swap _ _ _)
    (by decide)

/-! ### C3 — lazy group evaluation propagates the anchor's metadata -/

/-- Packaging of a validated group class and a successful member scan into
the evaluated group (the success direction of `evalLazy_ok`). -/
theorem evalLazy_ok_of_scan {parent : ContainerRef} {n : String}
    {anchor : ConstantObj} {gcc? : Option PyClass} {cc : PyClass}
    {gms : List (String × GMember)}
    {rs : List ((String × AttrOut) × Option (String × MemberObj))}
    (hs : scanList ⟨n, parent.fullName ++ "." ++ n,
        groupRepr (parent.fullName ++ "." ++ n)⟩ cc gms = .ok rs)
    (hcc : checkConstantClass gcc?
        (groupRepr (parent.fullName ++ "." ++ n)) = .ok cc) :
    evalLazy parent n anchor gcc? gms =
      .ok (.group anchor.counter (mergedValue anchor) anchor.name
        (.mk n (parent.fullName ++ "." ++ n)
          (groupRepr (parent.fullName ++ "." ++ n))
          (sortMembers (rs.filterMap (fun r => r.2)))
          (rs.map (fun r => r.1)))) :=
  evalLazy_ok.mpr ⟨cc, rs, hcc, hs, rfl⟩

def cA : ConstantObj := ⟨ConstantCls, 0, none, none, none⟩
def anchorB : ConstantObj := ⟨ValueConstantCls, 1, none, none, some (.int 10)⟩
def cC : ConstantObj := ⟨ConstantCls, 2, none, none, none⟩
def cD : ConstantObj := ⟨ConstantCls, 3, none, none, none⟩

/-- The body of `class FOO(Constants)` with `A = SimpleConstant()` and
`B = ValueConstant(10).to_group(group_class=Constants, D=..., C=...)`,
where the constants were created in the order A, the anchor, C, D but
declared in the order B, A (and, inside the group, D, C). -/
def fooAttrs : List (String × GMember) :=
  [("B", .lazy anchorB (some ConstantCls) [("D", .const cD), ("C", .const cC)]),
   ("A", .const cA)]

def fooRef : ContainerRef := ⟨"FOO", "FOO", contRepr "FOO"⟩
def bRef : ContainerRef := ⟨"B", "FOO.B", groupRepr "FOO.B"⟩
def cCB : ConstantObj := ⟨ConstantCls, 2, some "C", some bRef, none⟩
def cDB : ConstantObj := ⟨ConstantCls, 3, some "D", some bRef, none⟩
def cAB : ConstantObj := ⟨ConstantCls, 0, some "A", some fooRef, none⟩

/-- The group object `FOO.B` evaluates to. -/
def bGroup : MemberObj :=
  .group 1 (some (.int 10)) none
    (.mk "B" "FOO.B" (groupRepr "FOO.B")
      [("C", .const cCB), ("D", .const cDB)]
      [("D", .constObj cDB), ("C", .constObj cCB)])

/-- The finalized container `FOO`. -/
def fooCont : ContainerObj :=
  .mk "FOO" "FOO" (contRepr "FOO")
    [("A", .const cAB), ("B", bGroup)]
    [("B", .groupObj bGroup), ("A", .constObj cAB)]

theorem foo_scanD : scanOne bRef ConstantCls ("D", .const cD) =
    .ok (("D", .constObj cDB), some ("D", .const cDB)) :=
  @scanOne_const_free bRef ConstantCls "D" cD rfl rfl

theorem foo_scanC : scanOne bRef ConstantCls ("C", .const cC) =
    .ok (("C", .constObj cCB), some ("C", .const cCB)) :=
  @scanOne_const_free bRef ConstantCls "C" cC rfl rfl

def fooBrs : List ((String × AttrOut) × Option (String × MemberObj)) :=
  [(("D", .constObj cDB), some ("D", .const cDB)),
   (("C", .constObj cCB), some ("C", .const cCB))]

theorem foo_scanBmembers :
    scanList bRef ConstantCls [("D", .const cD), ("C", .const cC)] =
      .ok fooBrs := by
  rw [scanList_cons, foo_scanD, scanList_cons, foo_scanC, scanList_nil]
  rfl

theorem foo_evalB :
    evalLazy fooRef "B" anchorB (some ConstantCls)
      [("D", .const cD), ("C", .const cC)] = .ok bGroup :=
  ((@evalLazy_ok_of_scan fooRef "B" anchorB (some ConstantCls) ConstantCls
      [("D", .const cD), ("C", .const cC)] fooBrs
      foo_scanBmembers (by rfl))).trans (by rfl)

theorem foo_scanB :
    scanOne fooRef ConstantCls
      ("B", .lazy anchorB (some ConstantCls)
        [("D", .const cD), ("C", .const cC)]) =
      .ok (("B", .groupObj bGroup), some ("B", bGroup)) := by
  rw [scanOne_lazy, foo_evalB]
  rfl

theorem foo_scanA : scanOne fooRef ConstantCls ("A", .const cA) =
    .ok (("A", .constObj cAB), some ("A", .const cAB)) :=
  @scanOne_const_free fooRef ConstantCls "A" cA rfl rfl

def fooRs : List ((String × AttrOut) × Option (String × MemberObj)) :=
  [(("B", .groupObj bGroup), some ("B", bGroup)),
   (("A", .constObj cAB), some ("A", .const cAB))]

theorem foo_scan : scanList fooRef ConstantCls fooAttrs = .ok fooRs := by
  rw [show fooAttrs =
    [("B", .lazy anchorB (some ConstantCls)
        [("D", .const cD), ("C", .const cC)]),
     ("A", .const cA)] from rfl]
  rw [scanList_cons, foo_scanB, scanList_cons, foo_scanA, scanList_nil]
  rfl

theorem foo_eval : containerNew "FOO" (some ConstantCls) fooAttrs = .ok fooCont :=
  (containerNew_ok_of_scan (by rfl) foo_scan).trans (by rfl)

/-- C3: evaluating the lazy group descriptor
`B = ValueConstant(10).to_group(group_class=Constants, C=..., D=...)` inside
`FOO` during finalization yields a sub-container carrying the anchor's
metadata: `FOO.B.value == 10`, `FOO.B.names() == ["C", "D"]` (creation
order, although D was written first), `FOO.B.full_name == "FOO.B"`, and
`FOO.B` sorts among FOO's members by the anchor's creation counter (`FOO`
declares B textually first, yet `names()` is `["A", "B"]` because the
anchor's counter 1 follows A's counter 0). -/
theorem group_metadata_propagation :
    containerNew "FOO" (some ConstantCls) fooAttrs = .ok fooCont ∧
    fooCont.members.lookup "B" = some bGroup ∧
    bGroup.valueAttr = some (.int 10) ∧
    (bGroup.groupSub.map ContainerObj.names) = some ["C", "D"] ∧
    (bGroup.groupSub.map ContainerObj.fullName) = some "FOO.B" ∧
    bGroup.counter = anchorB.counter ∧
    fooCont.names = ["A", "B"] :=
  ⟨foo_eval, rfl, rfl, rfl, rfl, rfl, rfl⟩

/-! ### C2 — ownership exclusivity -/

/-- The scanning loop propagates the first failure: if every earlier
attribute scans fine and this one raises, the whole definition fails with
that error. -/
theorem scanList_error_after {ref : ContainerRef} {cc : PyClass} :
    ∀ {pre : List (String × GMember)} {p : String × GMember}
      {rest : List (String × GMember)} {e : PyError},
    (∀ q ∈ pre, ∃ r, scanOne ref cc q = .ok r) →
    scanOne ref cc p = .error e →
    scanList ref cc (pre ++ p :: rest) = .error e := by
  intro pre
  induction pre with
  | nil =>
    intro p rest e _ hp
    rw [List.nil_append, scanList_cons, hp]
    rfl
  | cons q pre ih =>
    intro p rest e hok hp
    rcases hok q (List.mem_cons_self q pre) with ⟨r, hr⟩
    rw [List.cons_append, scanList_cons, hr,
      ih (fun q2 hq2 => hok q2 (List.mem_cons_of_mem q hq2)) hp]
    rfl

/-- A validated class plus a failing scan fail the whole definition. -/
theorem containerNew_error_of_scan {nm : String} {cc? : Option PyClass}
    {cc : PyClass} {attrs : List (String × GMember)} {e : PyError}
    (hcc : checkConstantClass cc? (contRepr nm) = .ok cc)
    (hs : scanList ⟨nm, nm, contRepr nm⟩ cc attrs = .error e) :
    containerNew nm cc? attrs = .error e := by
  rw [containerNew_eq, hcc]
  show (scanList ⟨nm, nm, contRepr nm⟩ cc attrs).bind _ = .error e
  rw [hs]
  rfl

/-- A failing `constant_class` validation fails the whole definition. -/
theorem containerNew_error_of_check {nm : String} {cc? : Option PyClass}
    {attrs : List (String × GMember)} {e : PyError}
    (hcc : checkConstantClass cc? (contRepr nm) = .error e) :
    containerNew nm cc? attrs = .error e := by
  rw [containerNew_eq, hcc]
  rfl

/-- C2: a `Constant` already bound to a container (its `container`
back-reference is set to the owner) that appears as a declared attribute of
a second container — and satisfies that container's `constant_class` — makes
the second container's finalization fail with the already-bound `ValueError`
carrying the constant's `repr` (its full name under the old owner), the
attribute name, the target container's `repr` and the existing owner's
`repr`; no finalized container is produced. -/
theorem already_bound_rejected
    (nm : String) (cc? : Option PyClass) (cc : PyClass)
    (pre post : List (String × GMember)) (n : String)
    (c : ConstantObj) (owner : ContainerRef)
    (hcc : checkConstantClass cc? (contRepr nm) = .ok cc)
    (hinst : c.isInst cc = true)
    (hbound : c.container = some owner)
    (hpre : ∀ q ∈ pre, ∃ r, scanOne ⟨nm, nm, contRepr nm⟩ cc q = .ok r) :
    containerNew nm cc? (pre ++ (n, .const c) :: post) =
      .error (.alreadyBound c.pyRepr n (contRepr nm) owner.reprStr) :=
  containerNew_error_of_scan hcc
    (scanList_error_after hpre
      (by
        have h := @scanOne_const_bound ⟨nm, nm, contRepr nm⟩ cc n c owner
          hinst hbound
        exact h))

def aRef : ContainerRef := ⟨"A", "A", contRepr "A"⟩
def cFoo : ConstantObj := ⟨ConstantCls, 4, none, none, none⟩
def cFooBound : ConstantObj := ⟨ConstantCls, 4, some "FOO", some aRef, none⟩
def aCont : ContainerObj :=
  .mk "A" "A" (contRepr "A") [("FOO", .const cFooBound)]
    [("FOO", .constObj cFooBound)]

theorem w2_scanFoo : scanOne aRef ConstantCls ("FOO", .const cFoo) =
    .ok (("FOO", .constObj cFooBound), some ("FOO", .const cFooBound)) :=
  @scanOne_const_free aRef ConstantCls "FOO" cFoo rfl rfl

/-- Finalizing `class A` binds its constant (scene-setting for the
already-bound witness). -/
theorem w2_evalA : containerNew "A" (some ConstantCls)
    [("FOO", .const cFoo)] = .ok aCont :=
  (containerNew_ok_of_scan (by rfl)
    (by
      rw [show (⟨"A", "A", contRepr "A"⟩ : ContainerRef) = aRef from rfl]
      rw [scanList_cons, w2_scanFoo, scanList_nil]
      rfl)).trans (by rfl)

def w2x : ConstantObj := ⟨ConstantCls, 5, none, none, none⟩
def w2attrs : List (String × GMember) :=
  [("X", .const w2x), ("FOO", .const cFooBound)]

theorem already_bound_rejected_witness :
    containerNew "B" (some ConstantCls) w2attrs =
      .error (.alreadyBound cFooBound.pyRepr "FOO" (contRepr "B")
        aRef.reprStr) := by
  have h := already_bound_rejected "B" (some ConstantCls) ConstantCls
    [("X", .const w2x)] [] "FOO" cFooBound aRef (by rfl) rfl rfl
    (by
      intro q hq
      rcases List.mem_singleton.mp hq with rfl
      exact ⟨_, @scanOne_const_free ⟨"B", "B", contRepr "B"⟩ ConstantCls
        "X" w2x rfl rfl⟩)
  exact h

/-! ### C5 — constant_class validation -/

/-- Whether a definition failure is the formatted invalid-constant-class
`TypeError` (the only failure form that names the declared value and the
required base). -/
def isInvalidCCError : Except PyError ContainerObj → Bool
  | .error (.invalidConstantClass _ _ _) => true
  | _ => false

/-- C5 counterexample: declaring `constant_class = None` does fail at
definition time, but with the interpreter's own `issubclass` `TypeError`,
which names neither the declared value nor the required base — not with the
formatted invalid-constant-class error the claim requires. -/
theorem invalid_constant_class_none_generic :
    containerNew "FOO" none [] =
      .error (.typeErrorGeneric "issubclass() arg 1 must be a class") ∧
    isInvalidCCError (containerNew "FOO" none []) = false := by
  have h : containerNew "FOO" none [] =
      .error (.typeErrorGeneric "issubclass() arg 1 must be a class") :=
    containerNew_error_of_check rfl
  exact ⟨h, by rw [h]; rfl⟩

/-- C5 (amended): a `constant_class` that is a class not derived from
`Constant` fails at definition time with the formatted `TypeError` naming
the declared class, the container and the required base `Constant`; a
`constant_class` of `None` also fails at definition time, but with the
interpreter's generic `issubclass` `TypeError`, which names neither. -/
theorem invalid_constant_class_amended (nm : String)
    (attrs : List (String × GMember)) (cls : PyClass)
    (h : cls.isSub "Constant" = false) :
    containerNew nm (some cls) attrs =
      .error (.invalidConstantClass cls.clsName (contRepr nm) "Constant") ∧
    containerNew nm none attrs =
      .error (.typeErrorGeneric "issubclass() arg 1 must be a class") := by
  constructor
  · apply containerNew_error_of_check
    simp [checkConstantClass, h]
  · exact containerNew_error_of_check rfl

theorem invalid_constant_class_amended_witness :
    containerNew "FOO" (some IntCls) [] =
      .error (.invalidConstantClass "int" (contRepr "FOO") "Constant") ∧
    containerNew "FOO" none [] =
      .error (.typeErrorGeneric "issubclass() arg 1 must be a class") :=
  invalid_constant_class_amended "FOO" [] IntCls (by rfl)

/-! ### C6 — containers are not instantiable -/

/-- C6: every finalized container type — and every group a lazy descriptor
evaluated to inside it — inherits `ConstantsContainer.__new__`, so every
attempt to construct an instance raises the container-misuse `TypeError`
naming that container; the type itself is the namespace (finalization
returns the type object, and only it). -/
theorem container_not_instantiable (nm : String) (cc? : Option PyClass)
    (attrs : List (String × GMember)) (cont : ContainerObj)
    (h : containerNew nm cc? attrs = .ok cont) :
    cont.instantiate = .error (.containerMisused cont.reprStr) ∧
    cont.reprStr = contRepr nm ∧
    (∀ p ∈ cont.members, ∀ (k : Nat) (v : Option Val) (an : Option String)
      (sub : ContainerObj), p.2 = .group k v an sub →
      sub.instantiate = .error (.containerMisused sub.reprStr)) := by
  rcases containerNew_ok.mp h with ⟨cc, rs, _, _, rfl⟩
  exact ⟨rfl, rfl, fun p _ k v an sub _ => rfl⟩

theorem container_not_instantiable_witness :
    fooCont.instantiate = .error (.containerMisused fooCont.reprStr) ∧
    fooCont.reprStr = contRepr "FOO" ∧
    (∀ p ∈ fooCont.members, ∀ (k : Nat) (v : Option Val) (an : Option String)
      (sub : ContainerObj), p.2 = .group k v an sub →
      sub.instantiate = .error (.containerMisused sub.reprStr)) :=
  container_not_instantiable "FOO" (some ConstantCls) fooAttrs fooCont foo_eval

/-! ### C7 — indexed lookup and get -/

/-- C7: for every finalized container and name, `container[name]` returns
the stored member exactly when the name is among the member names and
otherwise raises a `KeyError` carrying the missing name and the container's
display `repr`; `get(name, default)` returns the same member when present
and the caller-supplied default otherwise, never raising. -/
theorem lookup_get_contract (cont : ContainerObj) (n : String)
    (d : Option MemberObj) :
    (cont.containsName n = true ↔ n ∈ cont.names) ∧
    (cont.containsName n = true →
      ∃ m, cont.members.lookup n = some m ∧ cont.getitem n = .ok m ∧
        cont.get n d = .ok (some m)) ∧
    (cont.containsName n = false →
      cont.getitem n = .error (.keyErrorMissing n cont.reprStr) ∧
      cont.get n d = .ok d) := by
  have hmem : ∀ (l : List (String × MemberObj)),
      ((l.lookup n).isSome = true ↔ n ∈ l.map Prod.fst) := by
    intro l
    induction l with
    | nil => simp [List.lookup]
    | cons p rest ih =>
      obtain ⟨k, v⟩ := p
      by_cases hk : n = k
      · subst hk
        simp [List.lookup]
      · have hbeq : (n == k) = false := by
          simp [hk]
        simp only [List.lookup, hbeq, List.map_cons, List.mem_cons, ih]
        constructor
        · exact Or.inr
        · rintro (h | h)
          · exact absurd h hk
          · exact h
  refine ⟨?_, ?_, ?_⟩
  · rw [ContainerObj.containsName, ContainerObj.names]
    exact hmem cont.members
  · intro h
    rw [ContainerObj.containsName] at h
    rcases Option.isSome_iff_exists.mp h with ⟨m, hm⟩
    refine ⟨m, hm, ?_, ?_⟩
    · rw [ContainerObj.getitem, hm]
    · have hc : cont.containsName n = true := by
        rw [ContainerObj.containsName, hm]
        rfl
      rw [ContainerObj.get, if_pos hc, ContainerObj.getitem, hm]
      rfl
  · intro h
    rw [ContainerObj.containsName] at h
    have hl : cont.members.lookup n = none := by
      cases hx : cont.members.lookup n with
      | none => rfl
      | some m =>
        rw [hx] at h
        cases h
    constructor
    · rw [ContainerObj.getitem, hl]
    · rw [ContainerObj.get, if_neg ?_]
      rw [ContainerObj.containsName, hl]
      simp

theorem lookup_get_contract_witness :
    (w1cont1.containsName "A" = true ↔ "A" ∈ w1cont1.names) ∧
    (∃ m, w1cont1.members.lookup "A" = some m ∧
      w1cont1.getitem "A" = .ok m ∧ w1cont1.get "A" none = .ok (some m)) ∧
    (w1cont1.getitem "Z" = .error (.keyErrorMissing "Z" w1cont1.reprStr) ∧
      w1cont1.get "Z" none = .ok none) :=
  ⟨(lookup_get_contract w1cont1 "A" none).1,
   (lookup_get_contract w1cont1 "A" none).2.1 (by rfl),
   (lookup_get_contract w1cont1 "Z" none).2.2 (by rfl)⟩

/-! ### C9 — equality and hash through full_name -/

/-- C9: two `Constant` instances compare equal exactly when their
`full_name` strings are equal (so structurally mirrored declarations from
different sites with the same dotted path compare equal), a `Constant` is
never equal to a non-`Constant`, and a constant's hash is the hash of its
`full_name` string. -/
theorem constant_eq_iff_full_name (a b : ConstantObj) (t : String) :
    (a.pyEq (.constant b) = true ↔ a.fullName = b.fullName) ∧
    a.pyEq (.nonConstant t) = false ∧
    a.pyHash = a.fullName.hash := by
  refine ⟨?_, rfl, rfl⟩
  rw [ConstantObj.pyEq]
  exact beq_iff_eq

def pkgARef : ContainerRef := ⟨"CONSTANTS", "CONSTANTS", contRepr "CONSTANTS"⟩
def w9a : ConstantObj := ⟨ConstantCls, 10, some "PRIMARY", some pkgARef, none⟩
def w9b : ConstantObj := ⟨ConstantCls, 20, some "PRIMARY", some pkgARef, none⟩

theorem constant_eq_iff_full_name_witness :
    w9a.pyEq (.constant w9b) = true ∧
    w9a.pyEq (.nonConstant "object") = false ∧
    w9a.pyHash = w9a.fullName.hash :=
  ⟨(constant_eq_iff_full_name w9a w9b "object").1.mpr rfl,
   (constant_eq_iff_full_name w9a w9b "object").2.1,
   (constant_eq_iff_full_name w9a w9b "object").2.2⟩

/-! ### Well-formedness of bound members (C4, C10, C8 machinery) -/

mutual
/-- The binding invariant for one stored member under the container it was
bound into: a constant member carries the mapping key as `name`, the
back-reference to its container, and the dotted `full_name`; a group member
carries the key as its `name`, the dotted `full_name`, and recursively
well-formed members of its own. -/
def memberWF : ContainerRef → String × MemberObj → Prop
  | ref, (n, .const c) =>
      c.name = some n ∧ c.container = some ref ∧
      c.fullName = ref.fullName ++ "." ++ n
  | ref, (n, .group _ _ _ sub) =>
      sub.name = n ∧ sub.fullName = ref.fullName ++ "." ++ n ∧
      membersWF ⟨n, sub.fullName, sub.reprStr⟩ sub.members
termination_by _ref p => sizeOf p.2
decreasing_by
  obtain ⟨a, b, c, ms, as⟩ := sub
  simp [ContainerObj.members]
  omega

/-- `memberWF` for every entry of a member list. -/
def membersWF : ContainerRef → List (String × MemberObj) → Prop
  | _, [] => True
  | ref, p :: rest => memberWF ref p ∧ membersWF ref rest
termination_by _ref l => sizeOf l
decreasing_by
  all_goals obtain ⟨a, b⟩ := p
  all_goals simp
  all_goals omega
end

theorem membersWF_iff_forall {ref : ContainerRef} :
    ∀ {l : List (String × MemberObj)},
    membersWF ref l ↔ ∀ p ∈ l, memberWF ref p := by
  intro l
  induction l with
  | nil => simp [membersWF]
  | cons p rest ih =>
    unfold membersWF
    rw [ih]
    constructor
    · rintro ⟨h1, h2⟩ q hq
      rcases List.mem_cons.mp hq with rfl | hq
      · exact h1
      · exact h2 q hq
    · intro h
      exact ⟨h p (List.mem_cons_self p rest), fun q hq =>
        h q (List.mem_cons_of_mem p hq)⟩

/-- Every owned member of a successful scan originates in a declared
attribute with the same key whose `scanOne` produced it. -/
theorem owned_mem_source {ref : ContainerRef} {cc : PyClass} :
    ∀ {l : List (String × GMember)}
      {rs : List ((String × AttrOut) × Option (String × MemberObj))},
    scanList ref cc l = .ok rs →
    ∀ pm ∈ rs.filterMap (fun r => r.2), ∃ g, (pm.1, g) ∈ l ∧
      ∃ a, scanOne ref cc (pm.1, g) = .ok (a, some pm) := by
  intro l
  induction l with
  | nil =>
    intro rs h
    rw [scanList_nil] at h
    cases h
    intro pm hpm
    cases hpm
  | cons p rest ih =>
    intro rs h pm hpm
    rcases scanList_cons_ok.mp h with ⟨r, rs2, h1, h2, rfl⟩
    obtain ⟨n, g⟩ := p
    cases hr2 : r.2 with
    | none =>
      rw [List.filterMap_cons, hr2] at hpm
      rcases ih h2 pm hpm with ⟨g2, hg2, a, ha⟩
      exact ⟨g2, List.mem_cons_of_mem _ hg2, a, ha⟩
    | some pm0 =>
      rw [List.filterMap_cons, hr2] at hpm
      rcases List.mem_cons.mp hpm with rfl | hpm
      · have hkey : pm.1 = n := (scanOne_key h1).2 pm hr2
        subst hkey
        refine ⟨g, List.mem_cons_self _ _, r.1, ?_⟩
        rw [h1]
        rw [show r = (r.1, r.2) from rfl, hr2]
      · rcases ih h2 pm hpm with ⟨g2, hg2, a, ha⟩
        exact ⟨g2, List.mem_cons_of_mem _ hg2, a, ha⟩

/-- With duplicate-free attribute keys, a key determines its declaration. -/
theorem nodup_keys_unique :
    ∀ {l : List (String × GMember)}, (l.map Prod.fst).Nodup →
    ∀ {n : String} {g1 g2 : GMember},
      (n, g1) ∈ l → (n, g2) ∈ l → g1 = g2 := by
  intro l
  induction l with
  | nil =>
    intro _ n g1 g2 h1
    cases h1
  | cons p rest ih =>
    obtain ⟨pn, pg⟩ := p
    intro hnodup n g1 g2 h1 h2
    rw [List.map_cons, List.nodup_cons] at hnodup
    rcases List.mem_cons.mp h1 with h1 | h1 <;>
      rcases List.mem_cons.mp h2 with h2 | h2
    · rw [Prod.mk.injEq] at h1 h2
      rw [h1.2, h2.2]
    · rw [Prod.mk.injEq] at h1
      have hm : pn ∈ List.map Prod.fst rest := by
        rw [← h1.1]
        exact List.mem_map_of_mem Prod.fst h2
      exact absurd hm hnodup.1
    · rw [Prod.mk.injEq] at h2
      have hm : pn ∈ List.map Prod.fst rest := by
        rw [← h2.1]
        exact List.mem_map_of_mem Prod.fst h1
      exact absurd hm hnodup.1
    · exact ih hnodup.2 h1 h2

/-- A successful `scanOne` produces a well-formed owned member: the
attribute key becomes the member's `name`, constants point back at the
binding container with the dotted `full_name`, and groups recursively bind
their own members the same way. -/
theorem scan_member_wf :
    ∀ (k : Nat) {ref : ContainerRef} {cc : PyClass} {n : String}
      {g : GMember} {a : String × AttrOut} {pm : String × MemberObj},
    sizeOf g ≤ k → scanOne ref cc (n, g) = .ok (a, some pm) →
    memberWF ref pm := by
  intro k
  induction k with
  | zero =>
    intro ref cc n g a pm hk h
    exfalso
    cases g <;> simp at hk
  | succ k ih =>
    intro ref cc n g a pm hk h
    cases g with
    | const c =>
      by_cases hinst : c.isInst cc = true
      · cases hb : c.container with
        | some owner =>
          rw [scanOne_const_bound hinst hb] at h
          cases h
        | none =>
          rw [scanOne_const_free hinst hb] at h
          simp only [Except.ok.injEq, Prod.mk.injEq, Option.some.injEq] at h
          obtain ⟨h1, h2⟩ := h
          subst h2
          unfold memberWF
          refine ⟨rfl, rfl, ?_⟩
          simp [ConstantObj.fullName, ConstantObj.postInit, optNameStr]
      · have hinst2 : c.isInst cc = false := by
          revert hinst
          cases c.isInst cc <;> simp
        rw [scanOne_const_excluded hinst2] at h
        simp only [Except.ok.injEq, Prod.mk.injEq] at h
        exact absurd h.2 (by simp)
    | lazy anchor gcc gms =>
      rw [scanOne_lazy] at h
      cases he : evalLazy ref n anchor gcc gms with
      | error e =>
        rw [he] at h
        cases h
      | ok g2 =>
        rw [he] at h
        simp only [Except.bind, Except.ok.injEq, Prod.mk.injEq,
          Option.some.injEq] at h
        obtain ⟨h1, h2⟩ := h
        subst h2
        rcases evalLazy_ok.mp he with ⟨cc2, rs, hcc2, hs, rfl⟩
        unfold memberWF
        refine ⟨rfl, rfl, ?_⟩
        rw [membersWF_iff_forall]
        intro q hq
        have hq2 : q ∈ rs.filterMap (fun r => r.2) :=
          ((sortMembers_perm _).mem_iff).mp hq
        rcases owned_mem_source hs q hq2 with ⟨g2, hg2mem, a2, ha2⟩
        have hsz : sizeOf g2 ≤ k := by
          have hlt : sizeOf (q.1, g2) < sizeOf gms :=
            List.sizeOf_lt_of_mem hg2mem
          simp only [GMember.lazy.sizeOf_spec] at hk
          simp only [Prod.mk.sizeOf_spec] at hlt
          omega
        exact ih hsz ha2

/-- C10: in every finalized container, each `(name, member)` pair of
`items()` has `member.name` equal to the mapping key; every owned plain
`Constant` member has its `container` back-reference set to the finalized
container, so its `full_name` is the container's `full_name` dot-joined with
its name — and the same binding invariant holds recursively inside groups
(`memberWF`). -/
theorem items_name_binding_invariant
    (nm : String) (cc? : Option PyClass)
    (attrs : List (String × GMember)) (cont : ContainerObj)
    (h : containerNew nm cc? attrs = .ok cont) :
    ∀ p ∈ cont.items,
      (∀ c2 : ConstantObj, p.2 = .const c2 →
        c2.name = some p.1 ∧ c2.container = some ⟨nm, nm, contRepr nm⟩ ∧
        c2.fullName = cont.fullName ++ "." ++ p.1) ∧
      (∀ (k : Nat) (v : Option Val) (an : Option String)
        (sub : ContainerObj), p.2 = .group k v an sub → sub.name = p.1) ∧
      memberWF ⟨nm, nm, contRepr nm⟩ p := by
  rcases containerNew_ok.mp h with ⟨cc, rs, hcc, hs, rfl⟩
  intro p hp
  have hp2 : p ∈ rs.filterMap (fun r => r.2) :=
    ((sortMembers_perm _).mem_iff).mp hp
  rcases owned_mem_source hs p hp2 with ⟨g, hgmem, a, ha⟩
  have hwf : memberWF ⟨nm, nm, contRepr nm⟩ p :=
    scan_member_wf (sizeOf g) (Nat.le_refl _) ha
  refine ⟨?_, ?_, hwf⟩
  · intro c2 hc2
    obtain ⟨pn, pmem⟩ := p
    subst hc2
    unfold memberWF at hwf
    exact hwf
  · intro k v an sub hsub
    obtain ⟨pn, pmem⟩ := p
    subst hsub
    unfold memberWF at hwf
    exact hwf.1

theorem items_name_binding_invariant_witness :
    (cAB.name = some "A" ∧
      cAB.container = some ⟨"FOO", "FOO", contRepr "FOO"⟩ ∧
      cAB.fullName = fooCont.fullName ++ "." ++ "A") ∧
    memberWF ⟨"FOO", "FOO", contRepr "FOO"⟩ ("B", bGroup) := by
  have h := items_name_binding_invariant "FOO" (some ConstantCls) fooAttrs
    fooCont foo_eval
  have hA := h ("A", .const cAB) (List.mem_cons_self _ _)
  have hB := h ("B", bGroup)
    (List.mem_cons_of_mem _ (List.mem_cons_self _ _))
  exact ⟨hA.1 cAB rfl, hB.2.2⟩

/-! ### C4 — covariant visibility -/

/-- C4: when a container's `constant_class` is a proper subtype and a
declared attribute holds a base-`Constant` instance that does not satisfy
it, finalization still succeeds; the instance stays in the attribute map
(with its name set by `_post_init(name)` and its container back-reference
`None`, so its `full_name` starts with the `__UNBOUND__` sentinel root) but
it contributes no owned member: its name is absent from `names()` and from
the member list behind `constants()`/`items()`/`len()`. -/
theorem covariant_visibility
    (nm : String) (cc? : Option PyClass) (cc : PyClass)
    (attrs : List (String × GMember)) (cont : ContainerObj)
    (n : String) (c : ConstantObj)
    (hcc : checkConstantClass cc? (contRepr nm) = .ok cc)
    (hinst : c.isInst cc = false)
    (hmem : (n, GMember.const c) ∈ attrs)
    (hnodup : (attrs.map Prod.fst).Nodup)
    (h : containerNew nm cc? attrs = .ok cont) :
    (n, AttrOut.constObj (c.postInit n none)) ∈ cont.attrs ∧
    (c.postInit n none).container = none ∧
    (c.postInit n none).fullName = "__UNBOUND__." ++ n ∧
    n ∉ cont.names ∧
    (∀ m : MemberObj, (n, m) ∉ cont.members) := by
  rcases containerNew_ok.mp h with ⟨cc2, rs, hcc2, hs, rfl⟩
  rw [hcc] at hcc2
  injection hcc2 with hcc2
  subst hcc2
  have hscan := @scanOne_const_excluded ⟨nm, nm, contRepr nm⟩ cc n c hinst
  have hnotin : ∀ m : MemberObj,
      (n, m) ∉ (rs.filterMap (fun r => r.2)) := by
    intro m hm
    rcases owned_mem_source hs (n, m) hm with ⟨g2, hg2, a2, ha2⟩
    have hg2c : g2 = .const c := nodup_keys_unique hnodup hg2 hmem
    subst hg2c
    rw [hscan] at ha2
    simp at ha2
  refine ⟨?_, rfl, ?_, ?_, ?_⟩
  · show (n, AttrOut.constObj (c.postInit n none)) ∈
      rs.map (fun r => r.1)
    rw [scanList_ok_map hs, List.map_map]
    refine List.mem_map.mpr ⟨(n, .const c), hmem, ?_⟩
    simp [Function.comp, okD, hscan]
  · rfl
  · intro hn
    rcases List.mem_map.mp hn with ⟨p, hp, hple⟩
    have hp2 : p ∈ rs.filterMap (fun r => r.2) :=
      ((sortMembers_perm _).mem_iff).mp hp
    obtain ⟨pn, pmem⟩ := p
    cases hple
    exact hnotin pmem hp2
  · intro m hm
    exact hnotin m (((sortMembers_perm _).mem_iff).mp hm)

def vA : ConstantObj := ⟨SomeConstantCls, 8, none, none, none⟩
def vE : ConstantObj := ⟨ConstantCls, 9, none, none, none⟩
def w4attrs : List (String × GMember) :=
  [("A", .const vA), ("E", .const vE)]
def w4Ref : ContainerRef := ⟨"V", "V", contRepr "V"⟩
def vAB : ConstantObj := ⟨SomeConstantCls, 8, some "A", some w4Ref, none⟩
def vEX : ConstantObj := ⟨ConstantCls, 9, some "E", none, none⟩
def w4cont : ContainerObj :=
  .mk "V" "V" (contRepr "V") [("A", .const vAB)]
    [("A", .constObj vAB), ("E", .constObj vEX)]

theorem w4_scanA : scanOne w4Ref SomeConstantCls ("A", .const vA) =
    .ok (("A", .constObj vAB), some ("A", .const vAB)) :=
  @scanOne_const_free w4Ref SomeConstantCls "A" vA rfl rfl

theorem w4_scanE : scanOne w4Ref SomeConstantCls ("E", .const vE) =
    .ok (("E", .constObj vEX), none) :=
  @scanOne_const_excluded w4Ref SomeConstantCls "E" vE rfl

theorem w4_eval : containerNew "V" (some SomeConstantCls) w4attrs =
    .ok w4cont :=
  (containerNew_ok_of_scan (by rfl)
    (by
      rw [show (⟨"V", "V", contRepr "V"⟩ : ContainerRef) = w4Ref from rfl]
      rw [show w4attrs = [("A", .const vA), ("E", .const vE)] from rfl]
      rw [scanList_cons, w4_scanA, scanList_cons, w4_scanE, scanList_nil]
      rfl)).trans (by rfl)

theorem covariant_visibility_witness :
    ("E", AttrOut.constObj (vE.postInit "E" none)) ∈ w4cont.attrs ∧
    (vE.postInit "E" none).container = none ∧
    (vE.postInit "E" none).fullName = "__UNBOUND__." ++ "E" ∧
    "E" ∉ w4cont.names ∧
    (∀ m : MemberObj, ("E", m) ∉ w4cont.members) :=
  covariant_visibility "V" (some SomeConstantCls) SomeConstantCls w4attrs
    w4cont "E" vE (by rfl) rfl
    (List.mem_cons_of_mem _ (List.mem_cons_self _ _))
    (by decide) w4_eval

/-! ### C8 — to_primitive shape -/

/-- The "name" field of a dict primitive. -/
def primName : Prim → Option Prim
  | .dict fs => fs.lookup "name"
  | _ => none

mutual
/-- The serialization contract for one stored member, recursively: a plain
constant serializes to the mapping carrying its name; a group serializes to
a mapping with exactly the fields `name` (the group's name) and `items`
(the ordered member serializations), the items count equals the group's
member count, the items' `name` fields match the group's keys in order, and
the same holds recursively below. -/
def primGood : String × MemberObj → Prop
  | (_, .const c) =>
      memberPrim (.const c) = .dict [("name", nameToPrim c.name)]
  | (_, .group k v an sub) =>
      memberPrim (.group k v an sub) =
        .dict [("name", .str sub.name),
               ("items", .list (primList sub.members))] ∧
      (primList sub.members).length = sub.members.length ∧
      (sub.members.map (fun q => primName (memberPrim q.2))) =
        sub.members.map (fun q => some (Prim.str q.1)) ∧
      primsGood sub.members
termination_by p => sizeOf p.2
decreasing_by
  obtain ⟨a, b, c, ms, as⟩ := sub
  simp [ContainerObj.members]
  omega

/-- `primGood` for every entry of a member list. -/
def primsGood : List (String × MemberObj) → Prop
  | [] => True
  | p :: rest => primGood p ∧ primsGood rest
termination_by l => sizeOf l
decreasing_by
  all_goals obtain ⟨a, b⟩ := p
  all_goals simp
  all_goals omega
end

theorem primsGood_iff_forall :
    ∀ {l : List (String × MemberObj)},
    primsGood l ↔ ∀ p ∈ l, primGood p := by
  intro l
  induction l with
  | nil => simp [primsGood]
  | cons p rest ih =>
    unfold primsGood
    rw [ih]
    constructor
    · rintro ⟨h1, h2⟩ q hq
      rcases List.mem_cons.mp hq with rfl | hq
      · exact h1
      · exact h2 q hq
    · intro h
      exact ⟨h p (List.mem_cons_self p rest), fun q hq =>
        h q (List.mem_cons_of_mem p hq)⟩

theorem primList_length :
    ∀ (l : List (String × MemberObj)), (primList l).length = l.length := by
  intro l
  induction l with
  | nil => rfl
  | cons p rest ih =>
    show (memberPrim p.2 :: primList rest).length = rest.length + 1
    rw [List.length_cons, ih]

/-- A well-formed member's serialization carries its mapping key as the
`name` field. -/
theorem primName_of_wf {ref : ContainerRef} {q : String × MemberObj}
    (hwf : memberWF ref q) : primName (memberPrim q.2) = some (.str q.1) := by
  obtain ⟨n, m⟩ := q
  cases m with
  | const c =>
    unfold memberWF at hwf
    show primName (.dict [("name", nameToPrim c.name)]) = some (.str n)
    rw [hwf.1]
    rfl
  | group k v an sub =>
    obtain ⟨a, b, c2, ms, as⟩ := sub
    unfold memberWF at hwf
    have ha : a = n := hwf.1
    subst ha
    rfl

theorem map_primName_eq {ref : ContainerRef} :
    ∀ {l : List (String × MemberObj)}, (∀ q ∈ l, memberWF ref q) →
    l.map (fun q => primName (memberPrim q.2)) =
      l.map (fun q => some (Prim.str q.1)) := by
  intro l
  induction l with
  | nil => intro _; rfl
  | cons p rest ih =>
    intro h
    simp only [List.map_cons]
    rw [primName_of_wf (h p (List.mem_cons_self p rest)),
      ih (fun q hq => h q (List.mem_cons_of_mem p hq))]

/-- The binding invariant implies the serialization contract. -/
theorem memberWF_primGood :
    ∀ (k : Nat) {ref : ContainerRef} {p : String × MemberObj},
    sizeOf p.2 ≤ k → memberWF ref p → primGood p := by
  intro k
  induction k with
  | zero =>
    intro ref p hk _
    exfalso
    obtain ⟨n, m⟩ := p
    cases m <;> simp at hk
  | succ k ih =>
    intro ref p hk hwf
    obtain ⟨n, m⟩ := p
    cases m with
    | const c =>
      unfold primGood
      rfl
    | group kk v an sub =>
      obtain ⟨a, b, c2, ms, as⟩ := sub
      unfold memberWF at hwf
      obtain ⟨h1, h2, h3⟩ := hwf
      rw [membersWF_iff_forall] at h3
      unfold primGood
      refine ⟨rfl, primList_length ms, map_primName_eq h3, ?_⟩
      rw [primsGood_iff_forall]
      intro q hq
      have hsz : sizeOf q.2 ≤ k := by
        have hlt : sizeOf q < sizeOf ms := List.sizeOf_lt_of_mem hq
        obtain ⟨qn, qm⟩ := q
        simp only [MemberObj.group.sizeOf_spec,
          ContainerObj.mk.sizeOf_spec, Prod.mk.sizeOf_spec] at hk hlt ⊢
        omega
      exact ih hsz (h3 q hq)

/-- C8: for every finalized container tree, `to_primitive` returns at each
container level a mapping with exactly the fields `name` and `items`, where
`items` is the ordered list of each member's own `to_primitive` output (its
length therefore equals `len` at every level) and the members' `name` fields
match `names()` in order; a plain constant serializes to the mapping
carrying its `name`; the contract holds recursively below (`primGood`). -/
theorem to_primitive_shape
    (nm : String) (cc? : Option PyClass)
    (attrs : List (String × GMember)) (cont : ContainerObj)
    (h : containerNew nm cc? attrs = .ok cont) :
    cont.toPrimitive =
      .dict [("name", .str cont.name),
             ("items", .list (primList cont.members))] ∧
    (primList cont.members).length = cont.len ∧
    (cont.members.map (fun q => primName (memberPrim q.2))) =
      cont.names.map (fun s => some (Prim.str s)) ∧
    (∀ p ∈ cont.members, primGood p) := by
  have hwfall : ∀ p ∈ cont.members, memberWF ⟨nm, nm, contRepr nm⟩ p := by
    intro p hp
    exact (items_name_binding_invariant nm cc? attrs cont h p hp).2.2
  rcases containerNew_ok.mp h with ⟨cc, rs, hcc, hs, rfl⟩
  refine ⟨rfl, primList_length _, ?_, ?_⟩
  · rw [ContainerObj.names, ContainerObj.members, List.map_map]
    exact map_primName_eq hwfall
  · intro p hp
    exact memberWF_primGood (sizeOf p.2) (Nat.le_refl _) (hwfall p hp)

theorem to_primitive_shape_witness :
    fooCont.toPrimitive =
      .dict [("name", .str fooCont.name),
             ("items", .list (primList fooCont.members))] ∧
    (primList fooCont.members).length = fooCont.len ∧
    (fooCont.members.map (fun q => primName (memberPrim q.2))) =
      fooCont.names.map (fun s => some (Prim.str s)) ∧
    (∀ p ∈ fooCont.members, primGood p) :=
  to_primitive_shape "FOO" (some ConstantCls) fooAttrs fooCont foo_eval
